import Mathlib

/-!
Shallow embedding of the authenticated BLE command core of the
waveshare-esp32-relay firmware (WS_Bluetooth.cpp, WS_ETH.cpp).

Bytes are modelled as `Nat` values below 256, 32-bit words as `Nat`
values reduced modulo 2^32 wherever the C code's `uint32_t` arithmetic
can overflow.  Fallible operations return `Option`.
-/

namespace RelayFw

/-- Modulus of 32-bit machine arithmetic. -/
def wordMod : Nat := 4294967296

/-- Rotate a 32-bit word right by `n` bits (FIPS 180-4 ROTR).
Models the word operations performed inside mbedtls SHA-256. -/
def rotr (n x : Nat) : Nat := ((x >>> n) ||| (x <<< (32 - n))) % wordMod

/-- SHA-256 big sigma 0. -/
def bsig0 (x : Nat) : Nat := (rotr 2 x) ^^^ (rotr 13 x) ^^^ (rotr 22 x)

/-- SHA-256 big sigma 1. -/
def bsig1 (x : Nat) : Nat := (rotr 6 x) ^^^ (rotr 11 x) ^^^ (rotr 25 x)

/-- SHA-256 small sigma 0. -/
def ssig0 (x : Nat) : Nat := (rotr 7 x) ^^^ (rotr 18 x) ^^^ (x >>> 3)

/-- SHA-256 small sigma 1. -/
def ssig1 (x : Nat) : Nat := (rotr 17 x) ^^^ (rotr 19 x) ^^^ (x >>> 10)

/-- SHA-256 choice function; complement is taken inside 32 bits. -/
def chf (x y z : Nat) : Nat := (x &&& y) ^^^ ((x ^^^ 4294967295) &&& z)

/-- SHA-256 majority function. -/
def majf (x y z : Nat) : Nat := (x &&& y) ^^^ (x &&& z) ^^^ (y &&& z)

/-- The 64 SHA-256 round constants. -/
def K256 : List Nat :=
  [1116352408, 1899447441, 3049323471, 3921009573, 961987163, 1508970993, 2453635748, 2870763221,
   3624381080, 310598401, 607225278, 1426881987, 1925078388, 2162078206, 2614888103, 3248222580,
   3835390401, 4022224774, 264347078, 604807628, 770255983, 1249150122, 1555081692, 1996064986,
   2554220882, 2821834349, 2952996808, 3210313671, 3336571891, 3584528711, 113926993, 338241895,
   666307205, 773529912, 1294757372, 1396182291, 1695183700, 1986661051, 2177026350, 2456956037,
   2730485921, 2820302411, 3259730800, 3345764771, 3516065817, 3600352804, 4094571909, 275423344,
   430227734, 506948616, 659060556, 883997877, 958139571, 1322822218, 1537002063, 1747873779,
   1955562222, 2024104815, 2227730452, 2361852424, 2428436474, 2756734187, 3204031479, 3329325298]

/-- Working state of the SHA-256 compression function (eight 32-bit words). -/
structure Hash8 where
  h0 : Nat
  h1 : Nat
  h2 : Nat
  h3 : Nat
  h4 : Nat
  h5 : Nat
  h6 : Nat
  h7 : Nat
deriving DecidableEq

/-- Initial SHA-256 chaining value. -/
def initH : Hash8 :=
  ⟨1779033703, 3144134277, 1013904242, 2773480762, 1359893119, 2600822924, 528734635, 1541459225⟩

/-- One SHA-256 round. -/
def sha256Round (st : Hash8) (k w : Nat) : Hash8 :=
  let t1 := (st.h7 + bsig1 st.h4 + chf st.h4 st.h5 st.h6 + k + w) % wordMod
  let t2 := (bsig0 st.h0 + majf st.h0 st.h1 st.h2) % wordMod
  ⟨(t1 + t2) % wordMod, st.h0, st.h1, st.h2, (st.h3 + t1) % wordMod, st.h4, st.h5, st.h6⟩

/-- Run the rounds over a list of (constant, schedule word) pairs. -/
def sha256Rounds : List (Nat × Nat) → Hash8 → Hash8
  | [], st => st
  | kw :: rest, st => sha256Rounds rest (sha256Round st kw.1 kw.2)

/-- Word-wise modular sum of two chaining values. -/
def addHash (x y : Hash8) : Hash8 :=
  ⟨(x.h0 + y.h0) % wordMod, (x.h1 + y.h1) % wordMod, (x.h2 + y.h2) % wordMod,
   (x.h3 + y.h3) % wordMod, (x.h4 + y.h4) % wordMod, (x.h5 + y.h5) % wordMod,
   (x.h6 + y.h6) % wordMod, (x.h7 + y.h7) % wordMod⟩

/-- Extend a 16-word block to the 64-word message schedule (`fuel` = 48 steps). -/
def extendSchedule : Nat → List Nat → List Nat
  | 0, ws => ws
  | n + 1, ws =>
      let t := (ssig1 (ws.getD (ws.length - 2) 0) + ws.getD (ws.length - 7) 0 +
                ssig0 (ws.getD (ws.length - 15) 0) + ws.getD (ws.length - 16) 0) % wordMod
      extendSchedule n (ws ++ [t])

/-- Compress one 16-word block into the chaining value. -/
def sha256Block (st : Hash8) (words : List Nat) : Hash8 :=
  addHash st (sha256Rounds (K256.zip (extendSchedule 48 words)) st)

/-- Big-endian packing of bytes into 32-bit words. -/
def bytesToWords : List Nat → List Nat
  | b0 :: b1 :: b2 :: b3 :: rest =>
      (b0 * 16777216 + b1 * 65536 + b2 * 256 + b3) :: bytesToWords rest
  | _ => []

/-- Big-endian unpacking of 32-bit words into bytes. -/
def wordsToBytes : List Nat → List Nat
  | [] => []
  | w :: rest => (w / 16777216 % 256) :: (w / 65536 % 256) :: (w / 256 % 256) :: (w % 256) :: wordsToBytes rest

/-- Big-endian 8-byte encoding of a length-in-bits counter. -/
def beBytes8 (n : Nat) : List Nat :=
  [n / 72057594037927936 % 256, n / 281474976710656 % 256, n / 1099511627776 % 256,
   n / 4294967296 % 256, n / 16777216 % 256, n / 65536 % 256, n / 256 % 256, n % 256]

/-- FIPS 180-4 padding: append 0x80, zero bytes to 56 mod 64, then the bit length. -/
def padMessage (msg : List Nat) : List Nat :=
  msg ++ [128] ++ List.replicate ((119 - msg.length % 64) % 64) 0 ++ beBytes8 (msg.length * 8)

/-- Split a byte list into 64-byte blocks (`fuel` bounds the recursion). -/
def chunkBlocks : Nat → List Nat → List (List Nat)
  | 0, _ => []
  | _, [] => []
  | fuel + 1, bs => bs.take 64 :: chunkBlocks fuel (bs.drop 64)

/-- Serialize a chaining value to its 32-byte big-endian digest. -/
def hashBytes (st : Hash8) : List Nat :=
  wordsToBytes [st.h0, st.h1, st.h2, st.h3, st.h4, st.h5, st.h6, st.h7]

/-- SHA-256 of a byte list, per FIPS 180-4.  Models the mbedtls SHA-256
primitive the firmware calls through `mbedtls_md`. -/
def sha256 (msg : List Nat) : List Nat :=
  hashBytes ((chunkBlocks (padMessage msg).length (padMessage msg)).foldl
    (fun st b => sha256Block st (bytesToWords b)) initH)

/-- HMAC-SHA256 (RFC 2104) for keys of at most one block (64 bytes); the
firmware's key is 13 bytes.  Models `mbedtls_md_hmac` as used in
`handleBleAuth17or34`. -/
def hmacSha256 (key msg : List Nat) : List Nat :=
  let k0 := key ++ List.replicate (64 - key.length) 0
  sha256 ((k0.map (fun b => b ^^^ 92)) ++ sha256 ((k0.map (fun b => b ^^^ 54)) ++ msg))

/-!
Embedding of `WS_Bluetooth.cpp`.  The process-wide wall clock read by
`time(nullptr)` is passed explicitly as a `now : Nat` parameter; the HMAC
primitive is passed as a function parameter so that independence from it
(no cryptographic work) is expressible, and `hmacSha256` is the real
instantiation.
-/

/-- The shared secret `SECRET_KEY[] = "key-fsa-relay"` (13 bytes,
terminating NUL excluded as in `SECRET_LEN = sizeof(SECRET_KEY) - 1`). -/
def SECRET_KEY : List Nat := [107, 101, 121, 45, 102, 115, 97, 45, 114, 101, 108, 97, 121]

/-- Embedding of `systemUtcIsValid`: the wall clock is trusted when it
reads strictly after epoch 1700000000. -/
def systemUtcIsValid (now : Nat) : Bool := 1700000000 < now

/-- Embedding of `sysUtcSecondsNow`: the wall clock truncated to `uint32_t`. -/
def sysUtcSecondsNow (now : Nat) : Nat := now % wordMod

/-- Embedding of the `hexNibble` lambda in `normalizeAuthPayload`:
value of a hex digit, or -1 for any other character. -/
def hexNibble (c : Nat) : Int :=
  if 48 ≤ c ∧ c ≤ 57 then (c : Int) - 48
  else if 65 ≤ c ∧ c ≤ 70 then (c : Int) - 65 + 10
  else if 97 ≤ c ∧ c ≤ 102 then (c : Int) - 97 + 10
  else -1

/-- The decoding loop of `normalizeAuthPayload` case B: each successive
character pair becomes one byte `(hi << 4) | lo`; any invalid character
fails the whole decode with no partial output. -/
def decodeHexPairs : List Nat → Option (List Nat)
  | [] => some []
  | c1 :: c2 :: rest =>
      let hi := hexNibble c1
      let lo := hexNibble c2
      if hi < 0 ∨ lo < 0 then none
      else
        match decodeHexPairs rest with
        | none => none
        | some out => some (((hi.toNat <<< 4) ||| lo.toNat) :: out)
  | [_] => none

/-- Embedding of `normalizeAuthPayload`: 17 raw bytes are copied
verbatim, 34 bytes are hex-decoded, anything else fails. -/
def normalizeAuthPayload (inp : List Nat) : Option (List Nat) :=
  if inp.length = 17 then some inp
  else if inp.length = 34 then decodeHexPairs inp
  else none

/-- Outcome of one run of `handleBleAuth17or34`, distinguishing the
early-return failure paths of the C function. -/
inductive AuthResult where
  | NormalizeFailed : AuthResult
  | ClockUntrusted : AuthResult
  | StaleOrFutureTimestamp : AuthResult
  | TagMismatch : AuthResult
  | Accepted : Nat → AuthResult
deriving DecidableEq

/-- Big-endian epoch recovery from bytes 1..4 of the canonical record,
exactly as `handleBleAuth17or34` computes it with shifts and ors. -/
def epochOf (b1 b2 b3 b4 : Nat) : Nat :=
  (b1 <<< 24) ||| (b2 <<< 16) ||| (b3 <<< 8) ||| b4

/-- The constant-time comparison loop of `handleBleAuth17or34`: the
byte-wise XOR of calculated and received tag bytes is accumulated with OR
over all 12 positions and only the final accumulator is tested. -/
def hmacCompare (fullMac bin : List Nat) : Nat :=
  (List.range 12).foldl (fun m i => m ||| ((fullMac.getD i 0) ^^^ (bin.getD (5 + i) 0))) 0

/-- Embedding of `handleBleAuth17or34` (decision structure; logging is
out of scope).  `hmacFn` abstracts the mbedtls HMAC-SHA256 computation of
lines 221-231; the real handler uses `hmacSha256`. -/
def handleBleAuth17or34 (hmacFn : List Nat → List Nat → List Nat) (now : Nat)
    (raw : List Nat) : AuthResult :=
  match normalizeAuthPayload raw with
  | none => AuthResult.NormalizeFailed
  | some bin =>
      let channel := bin.getD 0 0
      let epoch := epochOf (bin.getD 1 0) (bin.getD 2 0) (bin.getD 3 0) (bin.getD 4 0)
      if ¬ systemUtcIsValid now then AuthResult.ClockUntrusted
      else
        let nowU := sysUtcSecondsNow now
        let diff := if nowU > epoch then nowU - epoch else epoch - nowU
        if diff > 120 then AuthResult.StaleOrFutureTimestamp
        else
          let fullMac := hmacFn SECRET_KEY [channel, bin.getD 1 0, bin.getD 2 0, bin.getD 3 0, bin.getD 4 0]
          let mismatch := hmacCompare fullMac bin
          if mismatch ≠ 0 then AuthResult.TagMismatch
          else AuthResult.Accepted channel

/-- Externally observable effect of one BLE frame: which out-of-scope
collaborator, if any, the dispatcher hands the frame to. -/
inductive BleEffect where
  | dropped : BleEffect
  | rs485Forward : Nat → Nat → BleEffect
  | rtcSchedule : List Nat → BleEffect
  | relayActuate : Nat → Nat → BleEffect
deriving DecidableEq

/-- Embedding of `handleBle2Byte`: forwards `[opcode, selector]` to
`RS485_Analysis` only when `Extension_Enable` holds and the opcode is
0x06; otherwise the frame is dropped. -/
def handleBle2Byte (extensionEnable : Bool) (b : List Nat) : BleEffect :=
  if ¬ extensionEnable then BleEffect.dropped
  else if b.getD 0 0 ≠ 6 then BleEffect.dropped
  else BleEffect.rs485Forward (b.getD 0 0) (b.getD 1 0)

/-- Embedding of `handleBleRtc14`: hands the 14-byte packet to
`BLE_Set_RTC_Event` only when `RTC_Event_Enable` holds. -/
def handleBleRtc14 (rtcEventEnable : Bool) (b : List Nat) : BleEffect :=
  if ¬ rtcEventEnable then BleEffect.dropped
  else BleEffect.rtcSchedule b

/-- The success continuation of `handleBleAuth17or34`: on `AUTH OK` the
handler computes `cmd = (uint8_t)(channel + '0')` and calls
`Relay_Analysis(&cmd, Bluetooth_Mode)`; every failure path drops the
frame.  `btMode` models the global `Bluetooth_Mode` constant (declared
outside the provided sources) as an abstract fixed value. -/
def authEffect (btMode : Nat) (r : AuthResult) : BleEffect :=
  match r with
  | AuthResult.Accepted channel => BleEffect.relayActuate ((channel + 48) % 256) btMode
  | _ => BleEffect.dropped

/-- The four dispatch routes of `MyRXCallback::onWrite`. -/
inductive Route where
  | bridge2 : Route
  | rtc14 : Route
  | auth : Route
  | reject : Route
deriving DecidableEq

/-- Length-keyed routing decision of `MyRXCallback::onWrite`. -/
def dispatchRoute (len : Nat) : Route :=
  if len = 2 then Route.bridge2
  else if len = 14 then Route.rtc14
  else if len = 17 ∨ len = 34 then Route.auth
  else Route.reject

/-- Embedding of `MyRXCallback::onWrite`'s dispatch: route by frame
length to the matching handler, dropping anything else. -/
def onWrite (extensionEnable rtcEventEnable : Bool) (btMode now : Nat)
    (rx : List Nat) : BleEffect :=
  if rx.length = 2 then handleBle2Byte extensionEnable rx
  else if rx.length = 14 then handleBleRtc14 rtcEventEnable rx
  else if rx.length = 17 ∨ rx.length = 34 then
    authEffect btMode (handleBleAuth17or34 hmacSha256 now rx)
  else BleEffect.dropped

/-!
Embedding of `Acquisition_time` (WS_ETH.cpp).  Real time is abstracted
to poll instants: the loop samples `time(nullptr)` once per iteration
with a 500 ms delay under a 20000 ms budget, so at most 40 samples are
taken; `clock i` is the wall-clock reading at the i-th sample.  The pair
returned is (boolean result, number of writes to the RTC mirror).
-/

/-- The sanity threshold `1609459200` (2021-01-01 UTC) of `Acquisition_time`. -/
def sntpSanityThreshold : Nat := 1609459200

/-- Number of poll iterations within the 20 s budget at 500 ms per poll. -/
def acquisitionPolls : Nat := 40

/-- The polling loop of `Acquisition_time`: at each remaining poll,
succeed (returning `true` and writing the mirror once) as soon as the
sampled clock crosses the sanity threshold; when the budget is exhausted
return `false` with no mirror write. -/
def acquisitionLoop (clock : Nat → Nat) : Nat → Nat → Bool × Nat
  | _, 0 => (false, 0)
  | i, fuel + 1 =>
      if sntpSanityThreshold < clock i then (true, 1)
      else acquisitionLoop clock (i + 1) fuel

/-- Embedding of `Acquisition_time`: run the bounded polling loop from
the first sample. -/
def Acquisition_time (clock : Nat → Nat) : Bool × Nat :=
  acquisitionLoop clock 0 acquisitionPolls

/-- Big-endian byte decomposition of a 32-bit epoch (test-harness side
encoder used to state freshness properties). -/
def epochBytes (e : Nat) : List Nat :=
  [e / 16777216 % 256, e / 65536 % 256, e / 256 % 256, e % 256]

/-- Construct a canonical 17-byte record from channel, epoch, and tag. -/
def mkRecord (ch e : Nat) (tag : List Nat) : List Nat :=
  ch :: epochBytes e ++ tag

/-- ASCII code of a hex digit, upper- or lowercase as requested
(test-harness side encoder used to state the normalization round-trip). -/
def hexChar (upper : Bool) (n : Nat) : Nat :=
  if n < 10 then 48 + n else (if upper then 55 else 87) + n

/-- Encode bytes as ASCII hex, one independent case choice per character. -/
def hexEncode : List (Bool × Bool) → List Nat → List Nat
  | uc :: cs, b :: bs => hexChar uc.1 (b / 16) :: hexChar uc.2 (b % 16) :: hexEncode cs bs
  | _, _ => []

/-- Concrete canonical record: channel 1, epoch bytes 67 B5 A2 30, and
the true 12-byte truncated HMAC-SHA256 tag for that message under
`SECRET_KEY`. -/
def acceptedVector : List Nat :=
  [1, 103, 181, 162, 48, 157, 181, 172, 173, 83, 107, 122, 21, 181, 60, 57, 34]

/-! Helper lemmas shared by the claim theorems. -/

/-- Bitwise or of naturals is zero exactly when both operands are. -/
theorem lor_eq_zero_iff (x y : Nat) : x ||| y = 0 ↔ x = 0 ∧ y = 0 := by
  constructor
  · intro h
    have hx : ∀ i, x.testBit i = false := fun i => by
      have hb := congrArg (fun n => Nat.testBit n i) h
      simp [Nat.testBit_lor] at hb
      exact hb.1
    have hy : ∀ i, y.testBit i = false := fun i => by
      have hb := congrArg (fun n => Nat.testBit n i) h
      simp [Nat.testBit_lor] at hb
      exact hb.2
    exact ⟨Nat.eq_of_testBit_eq fun i => by simp [hx i],
           Nat.eq_of_testBit_eq fun i => by simp [hy i]⟩
  · rintro ⟨rfl, rfl⟩
    rfl

/-- Joining a high and a low nibble with shift and or is plain arithmetic. -/
theorem hexPair_eq (hi lo : Nat) (hlo : lo < 16) : (hi <<< 4) ||| lo = 16 * hi + lo := by
  rw [Nat.shiftLeft_eq, Nat.mul_comm hi (2 ^ 4),
    ← Nat.mul_add_lt_is_or (lt_of_lt_of_le hlo (by norm_num)) hi]

/-- The shift-and-or big-endian recovery of the epoch is plain arithmetic
on byte values. -/
theorem epochOf_eq (b1 b2 b3 b4 : Nat) (h2 : b2 < 256) (h3 : b3 < 256) (h4 : b4 < 256) :
    epochOf b1 b2 b3 b4 = b1 * 16777216 + b2 * 65536 + b3 * 256 + b4 := by
  have e1 : (b3 <<< 8) ||| b4 = b3 * 256 + b4 := by
    rw [Nat.shiftLeft_eq, Nat.mul_comm b3 (2 ^ 8),
      ← Nat.mul_add_lt_is_or (lt_of_lt_of_le h4 (by norm_num)) b3]
  have e2 : (b2 <<< 16) ||| (b3 * 256 + b4) = b2 * 65536 + (b3 * 256 + b4) := by
    rw [Nat.shiftLeft_eq, Nat.mul_comm b2 (2 ^ 16),
      ← Nat.mul_add_lt_is_or (show b3 * 256 + b4 < 2 ^ 16 by omega) b2]
  have e3 : (b1 <<< 24) ||| (b2 * 65536 + (b3 * 256 + b4)) =
      b1 * 16777216 + (b2 * 65536 + (b3 * 256 + b4)) := by
    rw [Nat.shiftLeft_eq, Nat.mul_comm b1 (2 ^ 24),
      ← Nat.mul_add_lt_is_or (show b2 * 65536 + (b3 * 256 + b4) < 2 ^ 24 by omega) b1]
  rw [epochOf, Nat.lor_assoc, Nat.lor_assoc, e1, e2, e3]
  ring

/-- The accumulate-and-test comparison is zero exactly when every one of
the 12 tag byte positions matches. -/
theorem hmacCompare_eq_zero_iff (fullMac bin : List Nat) :
    hmacCompare fullMac bin = 0 ↔ ∀ i, i < 12 → fullMac.getD i 0 = bin.getD (5 + i) 0 := by
  have hr : List.range 12 = [0, 1, 2, 3, 4, 5, 6, 7, 8, 9, 10, 11] := by rfl
  rw [hmacCompare, hr]
  simp only [List.foldl, Nat.zero_or, lor_eq_zero_iff, Nat.xor_eq_zero]
  constructor
  · intro h i hi
    interval_cases i <;> tauto
  · intro h
    refine ⟨⟨⟨⟨⟨⟨⟨⟨⟨⟨⟨?_, ?_⟩, ?_⟩, ?_⟩, ?_⟩, ?_⟩, ?_⟩, ?_⟩, ?_⟩, ?_⟩, ?_⟩, ?_⟩ <;>
      [exact h 0 (by omega); exact h 1 (by omega); exact h 2 (by omega);
       exact h 3 (by omega); exact h 4 (by omega); exact h 5 (by omega);
       exact h 6 (by omega); exact h 7 (by omega); exact h 8 (by omega);
       exact h 9 (by omega); exact h 10 (by omega); exact h 11 (by omega)]

/-- The first 12 elements of a long enough list, element by element. -/
theorem take12_eq (l : List Nat) (h : 12 ≤ l.length) :
    l.take 12 = [l.getD 0 0, l.getD 1 0, l.getD 2 0, l.getD 3 0, l.getD 4 0, l.getD 5 0,
                 l.getD 6 0, l.getD 7 0, l.getD 8 0, l.getD 9 0, l.getD 10 0, l.getD 11 0] := by
  rcases l with _ | ⟨a0, l⟩
  · simp at h
  rcases l with _ | ⟨a1, l⟩
  · simp at h
  rcases l with _ | ⟨a2, l⟩
  · simp at h
  rcases l with _ | ⟨a3, l⟩
  · simp at h
  rcases l with _ | ⟨a4, l⟩
  · simp at h
  rcases l with _ | ⟨a5, l⟩
  · simp at h
  rcases l with _ | ⟨a6, l⟩
  · simp at h
  rcases l with _ | ⟨a7, l⟩
  · simp at h
  rcases l with _ | ⟨a8, l⟩
  · simp at h
  rcases l with _ | ⟨a9, l⟩
  · simp at h
  rcases l with _ | ⟨a10, l⟩
  · simp at h
  rcases l with _ | ⟨a11, l⟩
  · simp at h
  rfl

/-- Unpacking words yields four bytes per word. -/
theorem wordsToBytes_length (ws : List Nat) : (wordsToBytes ws).length = 4 * ws.length := by
  induction ws with
  | nil => simp [wordsToBytes]
  | cons w ws ih => simp [wordsToBytes, ih]; ring

/-- The SHA-256 digest is always 32 bytes. -/
theorem sha256_length (msg : List Nat) : (sha256 msg).length = 32 := by
  simp [sha256, hashBytes, wordsToBytes]

/-- The HMAC-SHA256 output is always 32 bytes. -/
theorem hmacSha256_length (key msg : List Nat) : (hmacSha256 key msg).length = 32 :=
  sha256_length _

/-! Claim theorems. -/

/-- C1: for every inbound 17-byte canonical record, authentication fails
with `ClockUntrusted` exactly when the clock is untrusted, whatever the
record (hence regardless of tag correctness), and the result is then
independent of the HMAC primitive (no HMAC computation, no tag
comparison); since the conclusion holds for records of any epoch, the
clock-trust gate precedes the freshness gate and all cryptographic
work. -/
theorem clock_gate_precedes_crypto (now : Nat) (raw : List Nat) (hlen : raw.length = 17) :
    (systemUtcIsValid now = false →
      ∀ hmacFn : List Nat → List Nat → List Nat,
        handleBleAuth17or34 hmacFn now raw = AuthResult.ClockUntrusted) ∧
    (systemUtcIsValid now = true →
      ∀ hmacFn : List Nat → List Nat → List Nat,
        handleBleAuth17or34 hmacFn now raw ≠ AuthResult.ClockUntrusted) := by
  have hnorm : normalizeAuthPayload raw = some raw := by
    simp [normalizeAuthPayload, hlen]
  constructor
  · intro hun hmacFn
    simp [handleBleAuth17or34, hnorm, hun]
  · intro htr hmacFn
    simp only [handleBleAuth17or34, hnorm, htr]
    simp only [not_true_eq_false, if_false]
    repeat' split
    all_goals simp

/-- Witness for C1 at concrete inputs: an untrusted clock (epoch 1000)
rejects the all-zero record with `ClockUntrusted`; a trusted clock does
not produce `ClockUntrusted`. -/
theorem clock_gate_precedes_crypto_witness :
    handleBleAuth17or34 hmacSha256 1000 (List.replicate 17 0) = AuthResult.ClockUntrusted ∧
    handleBleAuth17or34 hmacSha256 1739956784 (List.replicate 17 0) ≠ AuthResult.ClockUntrusted :=
  ⟨(clock_gate_precedes_crypto 1000 (List.replicate 17 0) (by decide)).1 (by decide) hmacSha256,
   (clock_gate_precedes_crypto 1739956784 (List.replicate 17 0) (by decide)).2 (by decide) hmacSha256⟩

/-- C3: with a trusted clock reading `now`, the freshness gate fails with
`StaleOrFutureTimestamp` exactly when the absolute unsigned difference
between `now` and the record's epoch exceeds 120 seconds; epochs
`now - 120` and `now + 120` pass the gate while `now - 121` and
`now + 121` fail it. -/
theorem freshness_gate_boundary (now ch : Nat) (tag : List Nat) (hlen : tag.length = 12)
    (htrust : systemUtcIsValid now = true) (hbound : now + 121 < 4294967296) :
    (∀ e, e < 4294967296 →
      (handleBleAuth17or34 hmacSha256 now (mkRecord ch e tag) = AuthResult.StaleOrFutureTimestamp
        ↔ 120 < (if now > e then now - e else e - now))) ∧
    handleBleAuth17or34 hmacSha256 now (mkRecord ch (now - 120) tag) ≠
      AuthResult.StaleOrFutureTimestamp ∧
    handleBleAuth17or34 hmacSha256 now (mkRecord ch (now + 120) tag) ≠
      AuthResult.StaleOrFutureTimestamp ∧
    handleBleAuth17or34 hmacSha256 now (mkRecord ch (now - 121) tag) =
      AuthResult.StaleOrFutureTimestamp ∧
    handleBleAuth17or34 hmacSha256 now (mkRecord ch (now + 121) tag) =
      AuthResult.StaleOrFutureTimestamp := by
  have hnow : 1700000000 < now := by
    simpa [systemUtcIsValid] using htrust
  have main : ∀ e, e < 4294967296 →
      (handleBleAuth17or34 hmacSha256 now (mkRecord ch e tag) = AuthResult.StaleOrFutureTimestamp
        ↔ 120 < (if now > e then now - e else e - now)) := by
    intro e he
    have hcons : mkRecord ch e tag =
        ch :: (e / 16777216 % 256) :: (e / 65536 % 256) :: (e / 256 % 256) :: (e % 256) :: tag := by
      simp [mkRecord, epochBytes]
    have hlen17 : (mkRecord ch e tag).length = 17 := by
      rw [hcons]
      simp [hlen]
    have hnorm : normalizeAuthPayload (mkRecord ch e tag) = some (mkRecord ch e tag) := by
      simp [normalizeAuthPayload, hlen17]
    have hepoch : epochOf ((mkRecord ch e tag).getD 1 0) ((mkRecord ch e tag).getD 2 0)
        ((mkRecord ch e tag).getD 3 0) ((mkRecord ch e tag).getD 4 0) = e := by
      rw [hcons]
      show epochOf (e / 16777216 % 256) (e / 65536 % 256) (e / 256 % 256) (e % 256) = e
      rw [epochOf_eq _ _ _ _ (Nat.mod_lt _ (by norm_num)) (Nat.mod_lt _ (by norm_num))
        (Nat.mod_lt _ (by norm_num))]
      omega
    have hnowU : sysUtcSecondsNow now = now := by
      show now % wordMod = now
      rw [Nat.mod_eq_of_lt]
      show now < 4294967296
      omega
    simp only [handleBleAuth17or34, hnorm, hepoch, htrust, hnowU, not_true_eq_false, if_false]
    constructor
    · intro hres
      by_contra hnot
      rw [if_neg (by omega)] at hres
      revert hres
      split <;> simp
    · intro hgt
      rw [if_pos (by omega)]
  refine ⟨main, ?_, ?_, ?_, ?_⟩
  · rw [ne_eq, main (now - 120) (by omega)]
    split_ifs <;> omega
  · rw [ne_eq, main (now + 120) (by omega)]
    split_ifs <;> omega
  · rw [main (now - 121) (by omega)]
    split_ifs <;> omega
  · rw [main (now + 121) (by omega)]
    split_ifs <;> omega

/-- Witness for C3 at a concrete trusted clock: the epoch 121 seconds in
the future is rejected as stale-or-future. -/
theorem freshness_gate_boundary_witness :
    handleBleAuth17or34 hmacSha256 1739956784
      (mkRecord 0 (1739956784 + 121) (List.replicate 12 0)) =
      AuthResult.StaleOrFutureTimestamp :=
  (freshness_gate_boundary 1739956784 0 (List.replicate 12 0) (by decide) (by decide)
    (by decide)).2.2.2.2

/-- C4: the tag comparison accumulates the byte-wise XOR of expected and
received bytes over all 12 positions into one accumulator tested once at
the end (the definition of `hmacCompare` mirrors the source loop); the
accumulator is zero exactly when all 12 byte positions agree, and any
difference leaves it non-zero. -/
theorem tag_compare_constant_time (fullMac bin : List Nat) :
    (hmacCompare fullMac bin = 0 ↔ ∀ i, i < 12 → fullMac.getD i 0 = bin.getD (5 + i) 0) ∧
    (hmacCompare fullMac bin ≠ 0 → ∃ i, i < 12 ∧ fullMac.getD i 0 ≠ bin.getD (5 + i) 0) := by
  refine ⟨hmacCompare_eq_zero_iff fullMac bin, ?_⟩
  intro hne
  by_contra hall
  push_neg at hall
  exact hne ((hmacCompare_eq_zero_iff fullMac bin).mpr fun i hi => hall i hi)

/-- The pair-decoding loop fails whole when any character is invalid. -/
theorem decodeHexPairs_invalid : ∀ l : List Nat, (∃ c ∈ l, hexNibble c < 0) →
    decodeHexPairs l = none
  | [], h => by simp at h
  | [c], _ => by simp [decodeHexPairs]
  | c1 :: c2 :: rest, h => by
      by_cases hbad : hexNibble c1 < 0 ∨ hexNibble c2 < 0
      · simp only [decodeHexPairs]
        rw [if_pos hbad]
      · obtain ⟨c, hc, hcneg⟩ := h
        rcases List.mem_cons.mp hc with rfl | hc2
        · exact absurd (Or.inl hcneg) hbad
        rcases List.mem_cons.mp hc2 with rfl | hc3
        · exact absurd (Or.inr hcneg) hbad
        have ih := decodeHexPairs_invalid rest ⟨c, hc3, hcneg⟩
        simp only [decodeHexPairs]
        rw [if_neg hbad, ih]

/-- C6: any 34-byte input containing a character outside 0-9, A-F, a-f
fails normalization as a whole (no canonical record is produced), and any
length other than 17 and 34 is never routed to the authenticated path, so
normalization is not attempted for it. -/
theorem normalize_rejects_invalid (inp : List Nat) :
    (inp.length = 34 → (∃ c ∈ inp, hexNibble c < 0) → normalizeAuthPayload inp = none) ∧
    (inp.length ≠ 17 → inp.length ≠ 34 → dispatchRoute inp.length ≠ Route.auth) := by
  constructor
  · intro h34 hbad
    rw [normalizeAuthPayload, if_neg (by omega), if_pos h34]
    exact decodeHexPairs_invalid inp hbad
  · intro h17 h34
    rw [dispatchRoute]
    split_ifs with h1 h2 h3
    · simp
    · simp
    · exact absurd h3 (by simp [h17, h34])
    · simp

/-- Witness for C6: the 34-byte all-`G` input fails normalization, and
length 3 is not routed to the authenticator. -/
theorem normalize_rejects_invalid_witness :
    normalizeAuthPayload (List.replicate 34 71) = none ∧
    dispatchRoute 3 ≠ Route.auth :=
  ⟨(normalize_rejects_invalid (List.replicate 34 71)).1 (by decide)
      ⟨71, by decide, by decide⟩,
   (normalize_rejects_invalid (List.replicate 3 0)).2 (by decide) (by decide)⟩

/-- C7: the dispatcher's routing is keyed on the frame length alone, with
the four routes mutually exclusive and exhaustive over all lengths, and a
route whose feature flag is disabled never reaches its handler: with
`Extension_Enable` false no frame is forwarded to RS485, and with
`RTC_Event_Enable` false no frame reaches the RTC scheduler. -/
theorem dispatch_exhaustive (extEn rtcEn : Bool) (btMode now : Nat) (rx : List Nat) :
    ((dispatchRoute rx.length = Route.bridge2 ↔ rx.length = 2) ∧
     (dispatchRoute rx.length = Route.rtc14 ↔ rx.length = 14) ∧
     (dispatchRoute rx.length = Route.auth ↔ (rx.length = 17 ∨ rx.length = 34)) ∧
     (dispatchRoute rx.length = Route.reject ↔
        (rx.length ≠ 2 ∧ rx.length ≠ 14 ∧ rx.length ≠ 17 ∧ rx.length ≠ 34))) ∧
    (extEn = false → ∀ a s, onWrite extEn rtcEn btMode now rx ≠ BleEffect.rs485Forward a s) ∧
    (rtcEn = false → ∀ l, onWrite extEn rtcEn btMode now rx ≠ BleEffect.rtcSchedule l) := by
  refine ⟨?_, ?_, ?_⟩
  · rw [dispatchRoute]
    split_ifs with h1 h2 h3 <;> simp_all
    tauto
  · rintro rfl a s
    rw [onWrite]
    split_ifs with h1 h2 h3
    · simp [handleBle2Byte]
    · rw [handleBleRtc14]
      split_ifs <;> simp
    · rw [authEffect.eq_def]
      split <;> simp
    · simp
  · rintro rfl l
    rw [onWrite]
    split_ifs with h1 h2 h3
    · rw [handleBle2Byte]
      split_ifs <;> simp
    · simp [handleBleRtc14]
    · rw [authEffect.eq_def]
      split <;> simp
    · simp

/-- Witness for C7: with both feature flags disabled, the 2-byte RS485
frame `[06, 01]` and a well-formed 14-byte RTC frame are both dropped. -/
theorem dispatch_exhaustive_witness :
    onWrite false false 0 0 [6, 1] ≠ BleEffect.rs485Forward 6 1 ∧
    onWrite false false 0 0 (List.replicate 14 0) ≠ BleEffect.rtcSchedule (List.replicate 14 0) :=
  ⟨(dispatch_exhaustive false false 0 0 [6, 1]).2.1 rfl 6 1,
   (dispatch_exhaustive false false 0 0 (List.replicate 14 0)).2.2 rfl (List.replicate 14 0)⟩

/-- C10: a 2-byte frame is forwarded to the RS485 bridge exactly when
`Extension_Enable` is set and the opcode byte equals 0x06; any other
first byte is dropped with no handler invocation even when the flag is
enabled. -/
theorem bridge2_opcode_gate (extEn : Bool) (b : List Nat) :
    (∀ a s, handleBle2Byte extEn b = BleEffect.rs485Forward a s →
        extEn = true ∧ b.getD 0 0 = 6 ∧ a = b.getD 0 0 ∧ s = b.getD 1 0) ∧
    (extEn = true → b.getD 0 0 = 6 →
        handleBle2Byte extEn b = BleEffect.rs485Forward (b.getD 0 0) (b.getD 1 0)) ∧
    (b.getD 0 0 ≠ 6 → handleBle2Byte extEn b = BleEffect.dropped) := by
  refine ⟨?_, ?_, ?_⟩
  · intro a s h
    rw [handleBle2Byte] at h
    by_cases hext : extEn = true
    · rw [if_neg (not_not_intro hext)] at h
      by_cases h6 : b.getD 0 0 = 6
      · rw [if_neg (not_not_intro h6)] at h
        rcases h with ⟨⟩
        exact ⟨hext, h6, rfl, rfl⟩
      · rw [if_pos h6] at h
        cases h
    · rw [if_pos hext] at h
      cases h
  · rintro rfl h6
    rw [handleBle2Byte, if_neg (not_not_intro rfl), if_neg (not_not_intro h6)]
  · intro h6
    rw [handleBle2Byte]
    by_cases hext : extEn = true
    · rw [if_neg (not_not_intro hext), if_pos h6]
    · rw [if_pos hext]

/-- Witness for C10: `[06, 03]` with the extension enabled is forwarded;
`[05, 03]` is dropped even with the extension enabled. -/
theorem bridge2_opcode_gate_witness :
    handleBle2Byte true [6, 3] = BleEffect.rs485Forward 6 3 ∧
    handleBle2Byte true [5, 3] = BleEffect.dropped :=
  ⟨(bridge2_opcode_gate true [6, 3]).2.1 rfl (by decide),
   (bridge2_opcode_gate true [5, 3]).2.2 (by decide)⟩

/-- Decoding a hex digit produced by the encoder recovers the nibble. -/
theorem hexNibble_hexChar (u : Bool) : ∀ n, n < 16 → hexNibble (hexChar u n) = (n : Int) := by
  cases u <;> decide

/-- The mixed-case hex encoder emits two characters per byte. -/
theorem hexEncode_length : ∀ (cs : List (Bool × Bool)) (bs : List Nat),
    cs.length = bs.length → (hexEncode cs bs).length = 2 * bs.length
  | [], [], _ => by simp [hexEncode]
  | [], _ :: _, h => by simp at h
  | _ :: _, [], h => by simp at h
  | c :: cs, b :: bs, h => by
      have ih := hexEncode_length cs bs (by simpa using h)
      simp [hexEncode, ih]
      ring

/-- Decoding inverts the mixed-case hex encoding of any byte list. -/
theorem decodeHexPairs_hexEncode : ∀ (cs : List (Bool × Bool)) (bs : List Nat),
    cs.length = bs.length → (∀ b ∈ bs, b < 256) →
    decodeHexPairs (hexEncode cs bs) = some bs
  | [], [], _, _ => by simp [hexEncode, decodeHexPairs]
  | [], _ :: _, h, _ => by simp at h
  | _ :: _, [], h, _ => by simp at h
  | c :: cs, b :: bs, h, hb => by
      have hb256 : b < 256 := hb b (by simp)
      have ih := decodeHexPairs_hexEncode cs bs (by simpa using h)
        (fun x hx => hb x (by simp [hx]))
      have hhi : hexNibble (hexChar c.1 (b / 16)) = ((b / 16 : Nat) : Int) :=
        hexNibble_hexChar c.1 _ (by omega)
      have hlo : hexNibble (hexChar c.2 (b % 16)) = ((b % 16 : Nat) : Int) :=
        hexNibble_hexChar c.2 _ (by omega)
      simp only [hexEncode, decodeHexPairs, hhi, hlo, ih]
      rw [if_neg (by omega)]
      have hjoin : (((b / 16 : Nat) : Int).toNat <<< 4) ||| ((b % 16 : Nat) : Int).toNat = b := by
        rw [Int.toNat_natCast, Int.toNat_natCast, hexPair_eq _ _ (by omega)]
        omega
      rw [hjoin]

/-- C5: encoding any 17-byte record as 34 ASCII hex characters, with an
arbitrary upper/lower case choice for each character, normalizes back to
the identical record; a 17-byte input is normalized verbatim. -/
theorem normalize_roundtrip (bs : List Nat) (cs : List (Bool × Bool))
    (hbs : bs.length = 17) (hcs : cs.length = 17) (hb : ∀ b ∈ bs, b < 256) :
    normalizeAuthPayload (hexEncode cs bs) = some bs ∧
    normalizeAuthPayload bs = some bs := by
  have hlen : (hexEncode cs bs).length = 34 := by
    rw [hexEncode_length cs bs (by omega), hbs]
  constructor
  · rw [normalizeAuthPayload, if_neg (by omega), if_pos hlen]
    exact decodeHexPairs_hexEncode cs bs (by omega) hb
  · rw [normalizeAuthPayload, if_pos hbs]

/-- Witness for C5: the all-ones record round-trips through uppercase
hex, and is normalized verbatim as raw bytes. -/
theorem normalize_roundtrip_witness :
    normalizeAuthPayload (hexEncode (List.replicate 17 (true, false)) (List.replicate 17 1)) =
      some (List.replicate 17 1) ∧
    normalizeAuthPayload (List.replicate 17 1) = some (List.replicate 17 1) :=
  normalize_roundtrip (List.replicate 17 1) (List.replicate 17 (true, false))
    (by decide) (by decide) (fun b hb => by simp_all)

/-- The polling loop returns `(true, 1)` exactly when some sample within
its fuel crosses the sanity threshold, and `(false, 0)` otherwise. -/
theorem acquisitionLoop_spec (clock : Nat → Nat) : ∀ (fuel i : Nat),
    (acquisitionLoop clock i fuel = (true, 1) ↔
      ∃ j, j < fuel ∧ sntpSanityThreshold < clock (i + j)) ∧
    (acquisitionLoop clock i fuel = (true, 1) ∨ acquisitionLoop clock i fuel = (false, 0)) := by
  intro fuel
  induction fuel with
  | zero =>
      intro i
      simp [acquisitionLoop]
  | succ n ih =>
      intro i
      rw [acquisitionLoop]
      by_cases h : sntpSanityThreshold < clock i
      · rw [if_pos h]
        exact ⟨⟨fun _ => ⟨0, by omega, by simpa using h⟩, fun _ => rfl⟩, Or.inl rfl⟩
      · rw [if_neg h]
        refine ⟨?_, (ih (i + 1)).2⟩
        rw [(ih (i + 1)).1]
        constructor
        · rintro ⟨j, hj, hc⟩
          exact ⟨j + 1, by omega, by rw [show i + (j + 1) = i + 1 + j by omega]; exact hc⟩
        · rintro ⟨j, hj, hc⟩
          match j, hj, hc with
          | 0, _, hc => exact absurd (by simpa using hc) h
          | j + 1, hj, hc =>
              exact ⟨j, by omega, by rw [show i + 1 + j = i + (j + 1) by omega]; exact hc⟩

/-- C8: `Acquisition_time` returns true exactly when the sampled wall
clock crosses the sanity threshold within the 20-second polling budget;
on success the RTC mirror is written exactly once, and on timeout the
routine returns false having written the mirror zero times (its trust
signal, the system clock itself, is left unmodified). -/
theorem acquisition_determinism (clock : Nat → Nat) :
    ((Acquisition_time clock).1 = true ↔
      ∃ i, i < acquisitionPolls ∧ sntpSanityThreshold < clock i) ∧
    ((∃ i, i < acquisitionPolls ∧ sntpSanityThreshold < clock i) →
      Acquisition_time clock = (true, 1)) ∧
    (¬ (∃ i, i < acquisitionPolls ∧ sntpSanityThreshold < clock i) →
      Acquisition_time clock = (false, 0)) := by
  have hspec := acquisitionLoop_spec clock acquisitionPolls 0
  have hzero : ∀ j : Nat, 0 + j = j := by omega
  have hiff : Acquisition_time clock = (true, 1) ↔
      ∃ i, i < acquisitionPolls ∧ sntpSanityThreshold < clock i := by
    rw [Acquisition_time, hspec.1]
    constructor
    · rintro ⟨j, hj, hc⟩
      exact ⟨j, hj, by rwa [hzero j] at hc⟩
    · rintro ⟨j, hj, hc⟩
      exact ⟨j, hj, by rwa [hzero j]⟩
  refine ⟨?_, fun h => hiff.mpr h, fun h => ?_⟩
  · constructor
    · intro h1
      rcases hspec.2 with h | h
      · exact hiff.mp (by rw [Acquisition_time]; exact h)
      · rw [Acquisition_time] at h1
        rw [h] at h1
        cases h1
    · intro h
      rw [hiff.mpr h]
  · rcases hspec.2 with hcase | hcase
    · exact absurd (hiff.mp (by rw [Acquisition_time]; exact hcase)) h
    · rw [Acquisition_time]
      exact hcase

/-- Witness for C8: a clock stuck at zero times out with no mirror
write; a clock already past the threshold succeeds with one write. -/
theorem acquisition_determinism_witness :
    Acquisition_time (fun _ => 0) = (false, 0) ∧
    Acquisition_time (fun _ => 1739956784) = (true, 1) :=
  ⟨(acquisition_determinism (fun _ => 0)).2.2 (by rintro ⟨i, _, hc⟩; simp at hc),
   (acquisition_determinism (fun _ => 1739956784)).2.1 ⟨0, by decide, by decide⟩⟩

set_option maxRecDepth 1000000 in
/-- C2 (amended epoch value): for any record passing the clock-trust and
freshness gates, the authenticator computes HMAC-SHA256 over the 5-byte
message of channel byte followed by the unmodified big-endian epoch bytes
under the fixed shared key, and accepts exactly when the received 12-byte
tag equals the digest's first 12 bytes, failing with `TagMismatch`
otherwise; concretely, with key "key-fsa-relay", channel 1, and epoch
bytes 67 B5 A2 30 (epoch 1739956784, message 01 67 B5 A2 30), the record
carrying tag AA AA AA AA AA AA AA AA AA AA AA AA is rejected with
`TagMismatch`. -/
theorem hmac_accept_iff (now ch e1 e2 e3 e4 t0 t1 t2 t3 t4 t5 t6 t7 t8 t9 t10 t11 : Nat)
    (htrust : systemUtcIsValid now = true)
    (hfresh : (if sysUtcSecondsNow now > epochOf e1 e2 e3 e4
        then sysUtcSecondsNow now - epochOf e1 e2 e3 e4
        else epochOf e1 e2 e3 e4 - sysUtcSecondsNow now) ≤ 120) :
    (handleBleAuth17or34 hmacSha256 now
        [ch, e1, e2, e3, e4, t0, t1, t2, t3, t4, t5, t6, t7, t8, t9, t10, t11] =
        AuthResult.Accepted ch ↔
      [t0, t1, t2, t3, t4, t5, t6, t7, t8, t9, t10, t11] =
        (hmacSha256 SECRET_KEY [ch, e1, e2, e3, e4]).take 12) ∧
    ([t0, t1, t2, t3, t4, t5, t6, t7, t8, t9, t10, t11] ≠
        (hmacSha256 SECRET_KEY [ch, e1, e2, e3, e4]).take 12 →
      handleBleAuth17or34 hmacSha256 now
        [ch, e1, e2, e3, e4, t0, t1, t2, t3, t4, t5, t6, t7, t8, t9, t10, t11] =
        AuthResult.TagMismatch) ∧
    handleBleAuth17or34 hmacSha256 1739956784
      [1, 103, 181, 162, 48, 170, 170, 170, 170, 170, 170, 170, 170, 170, 170, 170, 170] =
      AuthResult.TagMismatch := by
  have hnorm : normalizeAuthPayload
      [ch, e1, e2, e3, e4, t0, t1, t2, t3, t4, t5, t6, t7, t8, t9, t10, t11] =
      some [ch, e1, e2, e3, e4, t0, t1, t2, t3, t4, t5, t6, t7, t8, t9, t10, t11] := by
    simp [normalizeAuthPayload]
  have g0 : List.getD [ch, e1, e2, e3, e4, t0, t1, t2, t3, t4, t5, t6, t7, t8, t9, t10, t11] 0 0 = ch := rfl
  have g1 : List.getD [ch, e1, e2, e3, e4, t0, t1, t2, t3, t4, t5, t6, t7, t8, t9, t10, t11] 1 0 = e1 := rfl
  have g2 : List.getD [ch, e1, e2, e3, e4, t0, t1, t2, t3, t4, t5, t6, t7, t8, t9, t10, t11] 2 0 = e2 := rfl
  have g3 : List.getD [ch, e1, e2, e3, e4, t0, t1, t2, t3, t4, t5, t6, t7, t8, t9, t10, t11] 3 0 = e3 := rfl
  have g4 : List.getD [ch, e1, e2, e3, e4, t0, t1, t2, t3, t4, t5, t6, t7, t8, t9, t10, t11] 4 0 = e4 := rfl
  have hred : handleBleAuth17or34 hmacSha256 now
      [ch, e1, e2, e3, e4, t0, t1, t2, t3, t4, t5, t6, t7, t8, t9, t10, t11] =
      if hmacCompare (hmacSha256 SECRET_KEY [ch, e1, e2, e3, e4])
          [ch, e1, e2, e3, e4, t0, t1, t2, t3, t4, t5, t6, t7, t8, t9, t10, t11] ≠ 0
      then AuthResult.TagMismatch else AuthResult.Accepted ch := by
    simp only [handleBleAuth17or34, hnorm, g0, g1, g2, g3, g4, htrust,
      not_true_eq_false, if_false]
    rw [if_neg (by omega)]
  have hmaclen : 12 ≤ (hmacSha256 SECRET_KEY [ch, e1, e2, e3, e4]).length := by
    rw [hmacSha256_length]
    omega
  have hiff : hmacCompare (hmacSha256 SECRET_KEY [ch, e1, e2, e3, e4])
      [ch, e1, e2, e3, e4, t0, t1, t2, t3, t4, t5, t6, t7, t8, t9, t10, t11] = 0 ↔
      [t0, t1, t2, t3, t4, t5, t6, t7, t8, t9, t10, t11] =
        (hmacSha256 SECRET_KEY [ch, e1, e2, e3, e4]).take 12 := by
    rw [hmacCompare_eq_zero_iff, take12_eq _ hmaclen]
    constructor
    · intro h
      have h0 : (hmacSha256 SECRET_KEY [ch, e1, e2, e3, e4]).getD 0 0 = t0 := h 0 (by omega)
      have h1 : (hmacSha256 SECRET_KEY [ch, e1, e2, e3, e4]).getD 1 0 = t1 := h 1 (by omega)
      have h2 : (hmacSha256 SECRET_KEY [ch, e1, e2, e3, e4]).getD 2 0 = t2 := h 2 (by omega)
      have h3 : (hmacSha256 SECRET_KEY [ch, e1, e2, e3, e4]).getD 3 0 = t3 := h 3 (by omega)
      have h4 : (hmacSha256 SECRET_KEY [ch, e1, e2, e3, e4]).getD 4 0 = t4 := h 4 (by omega)
      have h5 : (hmacSha256 SECRET_KEY [ch, e1, e2, e3, e4]).getD 5 0 = t5 := h 5 (by omega)
      have h6 : (hmacSha256 SECRET_KEY [ch, e1, e2, e3, e4]).getD 6 0 = t6 := h 6 (by omega)
      have h7 : (hmacSha256 SECRET_KEY [ch, e1, e2, e3, e4]).getD 7 0 = t7 := h 7 (by omega)
      have h8 : (hmacSha256 SECRET_KEY [ch, e1, e2, e3, e4]).getD 8 0 = t8 := h 8 (by omega)
      have h9 : (hmacSha256 SECRET_KEY [ch, e1, e2, e3, e4]).getD 9 0 = t9 := h 9 (by omega)
      have h10 : (hmacSha256 SECRET_KEY [ch, e1, e2, e3, e4]).getD 10 0 = t10 := h 10 (by omega)
      have h11 : (hmacSha256 SECRET_KEY [ch, e1, e2, e3, e4]).getD 11 0 = t11 := h 11 (by omega)
      rw [h0, h1, h2, h3, h4, h5, h6, h7, h8, h9, h10, h11]
    · intro h
      simp only [List.cons.injEq, and_true] at h
      obtain ⟨h0, h1, h2, h3, h4, h5, h6, h7, h8, h9, h10, h11⟩ := h
      intro i hi
      interval_cases i
      · exact h0.symm
      · exact h1.symm
      · exact h2.symm
      · exact h3.symm
      · exact h4.symm
      · exact h5.symm
      · exact h6.symm
      · exact h7.symm
      · exact h8.symm
      · exact h9.symm
      · exact h10.symm
      · exact h11.symm
  refine ⟨?_, ?_, ?_⟩
  · rw [hred]
    by_cases hc : hmacCompare (hmacSha256 SECRET_KEY [ch, e1, e2, e3, e4])
        [ch, e1, e2, e3, e4, t0, t1, t2, t3, t4, t5, t6, t7, t8, t9, t10, t11] = 0
    · rw [if_neg (not_not_intro hc)]
      exact ⟨fun _ => hiff.mp hc, fun _ => rfl⟩
    · rw [if_pos hc]
      exact ⟨fun h => AuthResult.noConfusion h, fun h => absurd (hiff.mpr h) hc⟩
  · intro hne
    rw [hred, if_pos (fun h0 => hne (hiff.mp h0))]
  · rfl

set_option maxRecDepth 1000000 in
/-- Witness for C2 at the amended concrete vector: the all-AA tag is
rejected with `TagMismatch` under the trusted clock 1739956784. -/
theorem hmac_accept_iff_witness :
    handleBleAuth17or34 hmacSha256 1739956784
      [1, 103, 181, 162, 48, 170, 170, 170, 170, 170, 170, 170, 170, 170, 170, 170, 170] =
      AuthResult.TagMismatch :=
  (hmac_accept_iff 1739956784 1 103 181 162 48 170 170 170 170 170 170 170 170 170 170 170 170
    (by decide) (by decide)).2.2

/-- C2 counterexample: the concrete vector of the claim is internally
inconsistent: the stated message bytes 67 B5 A2 30 decode to epoch
1739956784, not the stated decimal epoch 1739990000, whose big-endian
encoding is in fact 67 B6 23 F0. -/
theorem hmac_vector_epoch_inconsistent :
    epochOf 103 181 162 48 = 1739956784 ∧
    epochOf 103 181 162 48 ≠ 1739990000 ∧
    epochBytes 1739990000 = [103, 182, 35, 240] := by
  decide

/-- C9 (amended): on successful authentication the dispatcher hands the
external actuation collaborator `Relay_Analysis` the ASCII-digit
encoding of the recovered channel, `(channel + 0x30) mod 256`, together
with the fixed `Bluetooth_Mode` origin value; the unauthenticated 2-byte
and 14-byte paths never invoke this collaborator. -/
theorem auth_success_handoff (extEn rtcEn : Bool) (btMode now ch : Nat) (raw : List Nat)
    (hacc : handleBleAuth17or34 hmacSha256 now raw = AuthResult.Accepted ch) :
    onWrite extEn rtcEn btMode now raw = BleEffect.relayActuate ((ch + 48) % 256) btMode ∧
    (∀ b a s, handleBle2Byte extEn b ≠ BleEffect.relayActuate a s) ∧
    (∀ b a s, handleBleRtc14 rtcEn b ≠ BleEffect.relayActuate a s) := by
  have hlen : raw.length = 17 ∨ raw.length = 34 := by
    by_contra hno
    push_neg at hno
    have hnone : normalizeAuthPayload raw = none := by
      rw [normalizeAuthPayload, if_neg hno.1, if_neg hno.2]
    simp only [handleBleAuth17or34, hnone] at hacc
    cases hacc
  have h2 : ¬ raw.length = 2 := by rcases hlen with h | h <;> omega
  have h14 : ¬ raw.length = 14 := by rcases hlen with h | h <;> omega
  refine ⟨?_, ?_, ?_⟩
  · rw [onWrite, if_neg h2, if_neg h14, if_pos hlen, hacc]
    rfl
  · intro b a s
    rw [handleBle2Byte]
    split_ifs <;> simp
  · intro b a s
    rw [handleBleRtc14]
    split_ifs <;> simp

set_option maxRecDepth 1000000 in
/-- C9 counterexample: the concrete record `acceptedVector`
authenticates successfully with channel 1, yet the value handed to
`Relay_Analysis` is the ASCII digit 49, not the recovered channel value
1 named by the claim. -/
theorem auth_handoff_value_counterexample :
    handleBleAuth17or34 hmacSha256 1739956784 acceptedVector = AuthResult.Accepted 1 ∧
    onWrite false false 0 1739956784 acceptedVector = BleEffect.relayActuate 49 0 ∧
    (49 : Nat) ≠ 1 := by
  have hacc : handleBleAuth17or34 hmacSha256 1739956784 acceptedVector =
      AuthResult.Accepted 1 := by rfl
  refine ⟨hacc, ?_, by decide⟩
  rw [onWrite, if_neg (by decide), if_neg (by decide), if_pos (by decide), hacc]
  rfl

set_option maxRecDepth 1000000 in
/-- Witness for C9 at the concrete accepted record: the ASCII digit 49
(for channel 1) reaches the actuation collaborator with the abstract
origin value 5. -/
theorem auth_success_handoff_witness :
    onWrite true true 5 1739956784 acceptedVector = BleEffect.relayActuate 49 5 :=
  (auth_success_handoff true true 5 1739956784 1 acceptedVector (by rfl)).1

end RelayFw
